import Mathlib

/-!
Shallow embedding of the `transform-literally` spec engine (src/index.js).

The engine manipulates JavaScript runtime values; we model them with `JVal`.
Promises are modelled as already-settled: a fulfilled promise carries its
settled (non-promise) value, a rejected promise carries its error.  A spec is
a function from an evaluation context to a value, plus the static `mayDefer`
flag (`SPEC_PROMISE` in the source); a synchronous throw is modelled with
`Except.error`.
-/

/-- Errors thrown by the engine: `TypeError` (both the engine's own type
checks and the host's "x is not a function") and `IllegalSpecError`. -/
inductive JErr : Type where
  | typeError (msg : String)
  | illegalSpec (msg : String)
  deriving DecidableEq, Repr

/-- JavaScript runtime values.  `jprom v` is a promise settled with value `v`;
`jpromErr e` is a rejected promise. -/
inductive JVal : Type where
  | undef : JVal
  | jnull : JVal
  | jbool (b : Bool) : JVal
  | jnum (n : Int) : JVal
  | jstr (s : String) : JVal
  | jarr (xs : List JVal) : JVal
  | jobj (fs : List (String × JVal)) : JVal
  | jprom (v : JVal) : JVal
  | jpromErr (e : JErr) : JVal
  deriving Repr

mutual

/-- Structural boolean equality on `JVal` (hand-written because deriving does
not handle the nested inductive). -/
def beqJVal : JVal → JVal → Bool
  | .undef, .undef => true
  | .jnull, .jnull => true
  | .jbool a, .jbool b => a == b
  | .jnum a, .jnum b => a == b
  | .jstr a, .jstr b => a == b
  | .jarr xs, .jarr ys => beqJValList xs ys
  | .jobj fs, .jobj gs => beqJValFields fs gs
  | .jprom a, .jprom b => beqJVal a b
  | .jpromErr a, .jpromErr b => a == b
  | _, _ => false

/-- Elementwise equality on value lists. -/
def beqJValList : List JVal → List JVal → Bool
  | [], [] => true
  | x :: xs, y :: ys => beqJVal x y && beqJValList xs ys
  | _, _ => false

/-- Elementwise equality on field lists. -/
def beqJValFields : List (String × JVal) → List (String × JVal) → Bool
  | [], [] => true
  | (n, v) :: fs, (m, w) :: gs => n == m && beqJVal v w && beqJValFields fs gs
  | _, _ => false

end

mutual

theorem beqJVal_iff : ∀ (a b : JVal), (beqJVal a b = true ↔ a = b)
  | .undef, .undef => by simp [beqJVal]
  | .undef, .jnull => by simp [beqJVal]
  | .undef, .jbool _ => by simp [beqJVal]
  | .undef, .jnum _ => by simp [beqJVal]
  | .undef, .jstr _ => by simp [beqJVal]
  | .undef, .jarr _ => by simp [beqJVal]
  | .undef, .jobj _ => by simp [beqJVal]
  | .undef, .jprom _ => by simp [beqJVal]
  | .undef, .jpromErr _ => by simp [beqJVal]
  | .jnull, .undef => by simp [beqJVal]
  | .jnull, .jnull => by simp [beqJVal]
  | .jnull, .jbool _ => by simp [beqJVal]
  | .jnull, .jnum _ => by simp [beqJVal]
  | .jnull, .jstr _ => by simp [beqJVal]
  | .jnull, .jarr _ => by simp [beqJVal]
  | .jnull, .jobj _ => by simp [beqJVal]
  | .jnull, .jprom _ => by simp [beqJVal]
  | .jnull, .jpromErr _ => by simp [beqJVal]
  | .jbool _, .undef => by simp [beqJVal]
  | .jbool _, .jnull => by simp [beqJVal]
  | .jbool a, .jbool b => by simp [beqJVal]
  | .jbool _, .jnum _ => by simp [beqJVal]
  | .jbool _, .jstr _ => by simp [beqJVal]
  | .jbool _, .jarr _ => by simp [beqJVal]
  | .jbool _, .jobj _ => by simp [beqJVal]
  | .jbool _, .jprom _ => by simp [beqJVal]
  | .jbool _, .jpromErr _ => by simp [beqJVal]
  | .jnum _, .undef => by simp [beqJVal]
  | .jnum _, .jnull => by simp [beqJVal]
  | .jnum _, .jbool _ => by simp [beqJVal]
  | .jnum a, .jnum b => by simp [beqJVal]
  | .jnum _, .jstr _ => by simp [beqJVal]
  | .jnum _, .jarr _ => by simp [beqJVal]
  | .jnum _, .jobj _ => by simp [beqJVal]
  | .jnum _, .jprom _ => by simp [beqJVal]
  | .jnum _, .jpromErr _ => by simp [beqJVal]
  | .jstr _, .undef => by simp [beqJVal]
  | .jstr _, .jnull => by simp [beqJVal]
  | .jstr _, .jbool _ => by simp [beqJVal]
  | .jstr _, .jnum _ => by simp [beqJVal]
  | .jstr a, .jstr b => by simp [beqJVal]
  | .jstr _, .jarr _ => by simp [beqJVal]
  | .jstr _, .jobj _ => by simp [beqJVal]
  | .jstr _, .jprom _ => by simp [beqJVal]
  | .jstr _, .jpromErr _ => by simp [beqJVal]
  | .jarr _, .undef => by simp [beqJVal]
  | .jarr _, .jnull => by simp [beqJVal]
  | .jarr _, .jbool _ => by simp [beqJVal]
  | .jarr _, .jnum _ => by simp [beqJVal]
  | .jarr _, .jstr _ => by simp [beqJVal]
  | .jarr xs, .jarr ys => by simp [beqJVal, beqJValList_iff xs ys]
  | .jarr _, .jobj _ => by simp [beqJVal]
  | .jarr _, .jprom _ => by simp [beqJVal]
  | .jarr _, .jpromErr _ => by simp [beqJVal]
  | .jobj _, .undef => by simp [beqJVal]
  | .jobj _, .jnull => by simp [beqJVal]
  | .jobj _, .jbool _ => by simp [beqJVal]
  | .jobj _, .jnum _ => by simp [beqJVal]
  | .jobj _, .jstr _ => by simp [beqJVal]
  | .jobj _, .jarr _ => by simp [beqJVal]
  | .jobj fs, .jobj gs => by simp [beqJVal, beqJValFields_iff fs gs]
  | .jobj _, .jprom _ => by simp [beqJVal]
  | .jobj _, .jpromErr _ => by simp [beqJVal]
  | .jprom _, .undef => by simp [beqJVal]
  | .jprom _, .jnull => by simp [beqJVal]
  | .jprom _, .jbool _ => by simp [beqJVal]
  | .jprom _, .jnum _ => by simp [beqJVal]
  | .jprom _, .jstr _ => by simp [beqJVal]
  | .jprom _, .jarr _ => by simp [beqJVal]
  | .jprom _, .jobj _ => by simp [beqJVal]
  | .jprom a, .jprom b => by simp [beqJVal, beqJVal_iff a b]
  | .jprom _, .jpromErr _ => by simp [beqJVal]
  | .jpromErr _, .undef => by simp [beqJVal]
  | .jpromErr _, .jnull => by simp [beqJVal]
  | .jpromErr _, .jbool _ => by simp [beqJVal]
  | .jpromErr _, .jnum _ => by simp [beqJVal]
  | .jpromErr _, .jstr _ => by simp [beqJVal]
  | .jpromErr _, .jarr _ => by simp [beqJVal]
  | .jpromErr _, .jobj _ => by simp [beqJVal]
  | .jpromErr _, .jprom _ => by simp [beqJVal]
  | .jpromErr a, .jpromErr b => by simp [beqJVal]

theorem beqJValList_iff : ∀ (xs ys : List JVal), (beqJValList xs ys = true ↔ xs = ys)
  | [], [] => by simp [beqJValList]
  | [], _ :: _ => by simp [beqJValList]
  | _ :: _, [] => by simp [beqJValList]
  | x :: xs, y :: ys => by
      simp [beqJValList, beqJVal_iff x y, beqJValList_iff xs ys]

theorem beqJValFields_iff : ∀ (xs ys : List (String × JVal)),
    (beqJValFields xs ys = true ↔ xs = ys)
  | [], [] => by simp [beqJValFields]
  | [], _ :: _ => by simp [beqJValFields]
  | _ :: _, [] => by simp [beqJValFields]
  | (n, v) :: fs, (m, w) :: gs => by
      simp [beqJValFields, beqJVal_iff v w, beqJValFields_iff fs gs, and_assoc]

end

instance : DecidableEq JVal := fun a b => decidable_of_iff _ (beqJVal_iff a b)

deriving instance DecidableEq for Except

/-- The evaluation context: a map from binding tokens (fresh `Symbol`s in the
source, modelled as `Nat`) to values; reading an unbound token yields
`undefined`, as property access does in JavaScript. -/
def Ctx : Type := Nat → JVal

/-- `Object.assign({}, ctx, {[tok]: v})`: non-destructive context extension. -/
def ctxExtend (ctx : Ctx) (tok : Nat) (v : JVal) : Ctx :=
  fun n => if n = tok then v else ctx n

/-- The context with no bindings. -/
def ctxEmpty : Ctx := fun _ => JVal.undef

/-- JavaScript truthiness (`if (value)` / `if (!obj)` in the source). -/
def jsTruthy : JVal → Bool
  | .undef => false
  | .jnull => false
  | .jbool b => b
  | .jnum n => n != 0
  | .jstr s => s ≠ ""
  | _ => true

/-- `typeof` on our value domain (used in map's TypeError message). -/
def typeofStr : JVal → String
  | .undef => "undefined"
  | .jnull => "object"
  | .jbool _ => "boolean"
  | .jnum _ => "number"
  | .jstr _ => "string"
  | _ => "object"

/-- Is the value a promise (fulfilled or rejected)? -/
def isPromiseVal : JVal → Bool
  | .jprom _ => true
  | .jpromErr _ => true
  | _ => false

/-- `Promise.resolve(v)` / promise adoption by `.then`: a promise is returned
as is, a plain value becomes a fulfilled promise. -/
def presolve : JVal → JVal
  | .jprom v => .jprom v
  | .jpromErr e => .jpromErr e
  | v => .jprom v

/-- Awaiting a value: a fulfilled promise yields its settled value, a rejected
promise raises its error, a plain value is already settled. -/
def settle : JVal → Except JErr JVal
  | .jprom v => .ok v
  | .jpromErr e => .error e
  | v => .ok v

/-- Awaiting a batch left to right (`Promise.all` over already-settled
results): first rejection wins, otherwise the list of settled values. -/
def settleAll : List JVal → Except JErr (List JVal)
  | [] => .ok []
  | v :: vs =>
    match settle v with
    | .error e => .error e
    | .ok w =>
      match settleAll vs with
      | .error e => .error e
      | .ok ws => .ok (w :: ws)

/-- A spec: a tagged function from context to value (`SPEC_FN`), carrying the
static `mayDefer` flag (`SPEC_PROMISE`). -/
structure Spec : Type where
  run : Ctx → Except JErr JVal
  mayDefer : Bool

/-- The body argument of `makeSpecFn`: the `fn` receiving the context and the
evaluated child results, plus the explicit `hasPromises` override (false when
`fn` is passed as a plain function in the source). -/
structure SpecBody : Type where
  fn : Ctx → List JVal → Except JErr JVal
  hasPromises : Bool

/-- `specs.map(spec => spec(ctx))`: evaluate the child specs left to right; a
synchronous throw aborts the batch. -/
def evalChildren : List Spec → Ctx → Except JErr (List JVal)
  | [], _ => .ok []
  | s :: ss, ctx =>
    match s.run ctx with
    | .error e => .error e
    | .ok v =>
      match evalChildren ss ctx with
      | .error e => .error e
      | .ok vs => .ok (v :: vs)

/-- The evaluation function built by `makeSpecFn`: when `hp` is set the child
results are awaited as a batch (`Promise.all(...).then(...)`) and the body's
outcome is delivered as a promise; otherwise the body is called directly on
the raw child results. -/
def runComposed (body : SpecBody) (specs : List Spec) (hp : Bool) (ctx : Ctx) :
    Except JErr JVal :=
  match evalChildren specs ctx with
  | .error e => .error e
  | .ok cs =>
    if hp then
      match settleAll cs with
      | .error e => .ok (.jpromErr e)
      | .ok ws =>
        match body.fn ctx ws with
        | .error e => .ok (.jpromErr e)
        | .ok v => .ok (presolve v)
    else body.fn ctx cs

/-- `makeSpecFn(fn, ...specs)`: the composition primitive.  The flag is the
explicit override OR-ed with the children's flags, computed once here. -/
def makeSpecFn (body : SpecBody) (specs : List Spec) : Spec :=
  let hp := body.hasPromises || specs.any (fun s => s.mayDefer)
  ⟨runComposed body specs hp, hp⟩

/-- `constant(value)`. -/
def constant (value : JVal) : Spec :=
  makeSpecFn ⟨fun _ _ => .ok value, false⟩ []

/-- An argument in "spec-like" position: either an already-built spec (a
function carrying `SPEC_FN`) or a raw literal layer whose parts are again
spec-like (arrays and keyed records may mix literals and specs). -/
inductive SpecLike : Type where
  | spec (s : Spec) : SpecLike
  | undef : SpecLike
  | jnull : SpecLike
  | jbool (b : Bool) : SpecLike
  | jnum (n : Int) : SpecLike
  | jstr (s : String) : SpecLike
  | arr (xs : List SpecLike) : SpecLike
  | obj (fs : List (String × SpecLike)) : SpecLike

/-- The loop body of `ensureSpec`'s object branch: keep `names[i] -> attrs[i]`
exactly when `attrs[i] !== undefined`. -/
def objAssemble : List String → List JVal → List (String × JVal)
  | [], _ => []
  | _ :: _, [] => []
  | n :: ns, a :: attrs =>
    if a = JVal.undef then objAssemble ns attrs
    else (n, a) :: objAssemble ns attrs

mutual

/-- `ensureSpec(x)`: autospec lifting.  A spec is returned unchanged; an array
lifts elementwise to a spec producing the array of results; everything else
of `typeof === 'object'` — which in JavaScript includes `null` — takes the
object branch, lifting each enumerable property and dropping keys whose value
evaluates to `undefined`; remaining scalars become `constant`. -/
def ensureSpec : SpecLike → Spec
  | .spec s => s
  | .arr xs =>
      makeSpecFn ⟨fun _ items => .ok (.jarr items), false⟩ (ensureSpecList xs)
  | .jnull =>
      makeSpecFn ⟨fun _ attrs => .ok (.jobj (objAssemble [] attrs)), false⟩ []
  | .obj fs =>
      makeSpecFn
        ⟨fun _ attrs => .ok (.jobj (objAssemble (fs.map Prod.fst) attrs)), false⟩
        (ensureSpecFields fs)
  | .undef => constant .undef
  | .jbool b => constant (.jbool b)
  | .jnum n => constant (.jnum n)
  | .jstr s => constant (.jstr s)

/-- Lift the elements of an array argument in order. -/
def ensureSpecList : List SpecLike → List Spec
  | [] => []
  | x :: xs => ensureSpec x :: ensureSpecList xs

/-- Lift the property values of a record argument in key order. -/
def ensureSpecFields : List (String × SpecLike) → List Spec
  | [] => []
  | (_, v) :: fs => ensureSpec v :: ensureSpecFields fs

end

mutual

/-- Embed a runtime value as the literal argument it would be written as
(promises are not literal syntax; they embed via `constant`). -/
def toLit : JVal → SpecLike
  | .undef => .undef
  | .jnull => .jnull
  | .jbool b => .jbool b
  | .jnum n => .jnum n
  | .jstr s => .jstr s
  | .jarr xs => .arr (toLitList xs)
  | .jobj fs => .obj (toLitFields fs)
  | .jprom v => .spec (constant (.jprom v))
  | .jpromErr e => .spec (constant (.jpromErr e))

/-- Elementwise literal embedding. -/
def toLitList : List JVal → List SpecLike
  | [] => []
  | x :: xs => toLit x :: toLitList xs

/-- Fieldwise literal embedding. -/
def toLitFields : List (String × JVal) → List (String × SpecLike)
  | [] => []
  | (n, v) :: fs => (n, toLit v) :: toLitFields fs

end

mutual

/-- Literals for which lifting is a faithful round trip: no `null` anywhere
(JavaScript's `typeof null === 'object'` sends it down the record branch), no
promises (not literal syntax), and no record field valued `undefined` (such
keys are dropped by the object branch). -/
def goodLit : JVal → Bool
  | .undef => true
  | .jnull => false
  | .jbool _ => true
  | .jnum _ => true
  | .jstr _ => true
  | .jarr xs => goodLitList xs
  | .jobj fs => goodLitFields fs
  | .jprom _ => false
  | .jpromErr _ => false

/-- All elements are round-trippable literals. -/
def goodLitList : List JVal → Bool
  | [] => true
  | x :: xs => goodLit x && goodLitList xs

/-- All field values are round-trippable and none is `undefined`. -/
def goodLitFields : List (String × JVal) → Bool
  | [] => true
  | (_, v) :: fs => !(v == JVal.undef) && goodLit v && goodLitFields fs

end

/-- JavaScript ToString for property keys (`caseSpecs[caseValue]`,
`obj[property]`). -/
def toPropKey : JVal → String
  | .undef => "undefined"
  | .jnull => "null"
  | .jbool b => if b then "true" else "false"
  | .jnum n => toString n
  | .jstr s => s
  | .jarr _ => "[object Array]"
  | .jobj _ => "[object Object]"
  | .jprom _ => "[object Promise]"
  | .jpromErr _ => "[object Promise]"

/-- `property in obj` (own keys of a record; indices and `length` of an
array). -/
def propIn (key : String) : JVal → Bool
  | .jobj fs => fs.any (fun p => p.1 = key)
  | .jarr xs => key = "length" || (xs.enum.any (fun p => toString p.1 = key))
  | _ => false

/-- `obj[property]`: record field lookup, array index / `length` lookup,
`undefined` otherwise. -/
def propGet (key : String) : JVal → JVal
  | .jobj fs =>
      match fs.find? (fun p => p.1 = key) with
      | some p => p.2
      | none => .undef
  | .jarr xs =>
      if key = "length" then .jnum xs.length
      else
        match xs.enum.find? (fun p => toString p.1 = key) with
        | some p => p.2
        | none => .undef
  | _ => (.undef)

/-- A function-position argument as the JavaScript caller may pass it: a real
function, or any other (non-callable) value. -/
inductive FnArg (φ : Type) : Type where
  | fn (f : φ) : FnArg φ
  | nonFn (v : JVal) : FnArg φ

/-- `requireFunction(fn)`: throw `IllegalSpecError` on a non-callable,
otherwise hand the function back to the construction that validated it. -/
def requireFunction {φ : Type} : FnArg φ → Except JErr φ
  | .fn f => .ok f
  | .nonFn _ => .error (.illegalSpec "argument must be function")

/-- Invoking an argument directly without validation (`specFn(...)` in
`object`, `bind`, `cache`, `input`): a non-callable raises the host's
`TypeError`, not `IllegalSpecError`. -/
def invoke {φ : Type} : FnArg φ → Except JErr φ
  | .fn f => .ok f
  | .nonFn _ => .error (.typeError "is not a function")

/-- Does construction fail with `IllegalSpecError`? -/
def isIllegalSpecErr {α : Type} : Except JErr α → Bool
  | .error (.illegalSpec _) => true
  | _ => false

/-- Does construction fail at all? -/
def isErr {α : Type} : Except JErr α → Bool
  | .error _ => true
  | _ => false

/-- The spec handed to a scoping combinator's callback: reads the fresh token
(`ctx => ctx[currentItem]` and friends). -/
def tokenRef (tok : Nat) : Spec :=
  makeSpecFn ⟨fun ctx _ => .ok (ctx tok), false⟩ []

/-- `array.map(item => itemSpec(newCtx))`: evaluate the item spec once per
element, left to right, under the per-element extended context; a synchronous
throw aborts the loop. -/
def mapItems (itemSpec : Spec) (tok : Nat) (ctx : Ctx) :
    List JVal → Except JErr (List JVal)
  | [] => .ok []
  | it :: rest =>
    match itemSpec.run (ctxExtend ctx tok it) with
    | .error e => .error e
    | .ok w =>
      match mapItems itemSpec tok ctx rest with
      | .error e => .error e
      | .ok ws => .ok (w :: ws)

/-- `Promise.all(result)` over the per-item results in `map`. -/
def pallJ (vs : List JVal) : JVal :=
  match settleAll vs with
  | .ok ws => .jprom (.jarr ws)
  | .error e => .jpromErr e

/-- The spec built by `map` once its arguments are validated: the body throws
`TypeError` unless the array spec evaluated to an array, then maps the item
spec over the elements, batching the results when the item spec may defer. -/
def mapCore (tok : Nat) (arraySpec itemSpec : Spec) : Spec :=
  let itemPromises := itemSpec.mayDefer
  makeSpecFn
    ⟨fun ctx args =>
        match args.getD 0 .undef with
        | .jarr items =>
          (match mapItems itemSpec tok ctx items with
           | .error e => .error e
           | .ok rs => if itemPromises then .ok (pallJ rs) else .ok (.jarr rs))
        | other =>
          .error (.typeError
            ("Argument did not evaluate to an array: " ++ typeofStr other))
    , itemPromises⟩ [arraySpec]

/-- `map(arraySpec, itemSpecFn)`: lift the array spec, validate the item
callback with `requireFunction`, mint the per-item token and build the spec. -/
def mapChecked (tok : Nat) (arraySpec : SpecLike)
    (g : FnArg (Spec → SpecLike)) : Except JErr Spec :=
  let arrS := ensureSpec arraySpec
  match requireFunction g with
  | .error e => .error e
  | .ok f => .ok (mapCore tok arrS (ensureSpec (f (tokenRef tok))))

/-- `resolve(promiseSpec)`: force `mayDefer` and await the child. -/
def resolveC (promiseSpec : SpecLike) : Spec :=
  makeSpecFn
    ⟨fun _ args => .ok (presolve (args.getD 0 .undef)), true⟩
    [ensureSpec promiseSpec]

/-- The spec built by `call` once `fn` is validated: one child evaluating to
the array of argument values, spread into `fn`. -/
def callCore (f : List JVal → Except JErr JVal) (argumentSpec : List SpecLike) :
    Spec :=
  makeSpecFn
    ⟨fun _ args =>
        match args.getD 0 .undef with
        | .jarr xs => f xs
        | _ => f []
    , false⟩ [ensureSpec (.arr argumentSpec)]

/-- `call(fn, ...argumentSpec)`: validate `fn` with `requireFunction`, then
build the spec. -/
def callChecked (g : FnArg (List JVal → Except JErr JVal))
    (argumentSpec : List SpecLike) : Except JErr Spec :=
  match requireFunction g with
  | .error e => .error e
  | .ok f => .ok (callCore f argumentSpec)

/-- `Object.assign({}, ...objs)`: left-to-right shallow merge of records
(later keys win; `objAssign` removes an earlier binding that a later record
overwrites, keeping first-write position like a JavaScript object). -/
def objAssign (acc : List (String × JVal)) : List (String × JVal) → List (String × JVal)
  | [] => acc
  | (n, v) :: rest =>
    if acc.any (fun p => p.1 = n) then
      objAssign (acc.map (fun p => if p.1 = n then (n, v) else p)) rest
    else objAssign (acc ++ [(n, v)]) rest

/-- `union(...specs)`: evaluate every spec and shallow-merge the records. -/
def unionC (specs : List SpecLike) : Spec :=
  makeSpecFn
    ⟨fun _ objs =>
        .ok (.jobj (objs.foldl
          (fun acc o =>
            match o with
            | .jobj fs => objAssign acc fs
            | _ => acc) []))
    , false⟩ (ensureSpecList specs)

/-- The construction-time loop of `cases`: each entry of the case map is
lifted and written back in place (`caseSpecs[caseName] = caseSpec`). -/
def casesLiftMap : List (String × SpecLike) → List (String × Spec)
  | [] => []
  | (n, s) :: rest => (n, ensureSpec s) :: casesLiftMap rest

/-- The content of the caller's case-map object after `cases` returns: every
entry has been replaced in place by its lifted spec (the only combinator that
writes into an argument; its state-passing signature returns the
argument's post-construction content). -/
def casesMapAfter (cm : List (String × SpecLike)) : List (String × SpecLike) :=
  (casesLiftMap cm).map (fun p => (p.1, SpecLike.spec p.2))

/-- `caseSpecs[caseValue]` on the lifted map (own keys, first match). -/
def lookupCase : List (String × Spec) → String → Option Spec
  | [], _ => none
  | (n, s) :: rest, key => if n = key then some s else lookupCase rest key

/-- `cases(spec, caseSpecs)`: evaluate the selector, look its key up in the
case map; a missing case yields `undefined`; the promise-aware branch wraps
the dispatch in `Promise.resolve(...).then(...)`. -/
def casesC (selector : SpecLike) (caseSpecsArg : List (String × SpecLike)) : Spec :=
  let spec := ensureSpec selector
  let caseSpecs := casesLiftMap caseSpecsArg
  let hp := spec.mayDefer || caseSpecs.any (fun p => p.2.mayDefer)
  { mayDefer := hp
  , run := fun ctx =>
      if hp then
        match spec.run ctx with
        | .error e => .error e
        | .ok v =>
          match settle v with
          | .error e => .ok (.jpromErr e)
          | .ok cv =>
            match lookupCase caseSpecs (toPropKey cv) with
            | none => .ok (presolve .undef)
            | some cs =>
              match cs.run ctx with
              | .error e => .ok (.jpromErr e)
              | .ok r => .ok (presolve r)
      else
        match spec.run ctx with
        | .error e => .error e
        | .ok cv =>
          match lookupCase caseSpecs (toPropKey cv) with
          | none => .ok .undef
          | some cs => cs.run ctx }

/-- `conditional(valueSpec, trueSpec, falseSpec)`: evaluate the condition;
only the selected branch is evaluated. -/
def conditionalC (valueSpec trueSpec falseSpec : SpecLike) : Spec :=
  let vs := ensureSpec valueSpec
  let ts := ensureSpec trueSpec
  let fs := ensureSpec falseSpec
  makeSpecFn
    ⟨fun ctx args =>
        if jsTruthy (args.getD 0 .undef) then ts.run ctx else fs.run ctx
    , ts.mayDefer || fs.mayDefer⟩ [vs]

/-- The property-accessor closure handed to `object`'s result builder: reads
`nameSpec` as a property off the currently bound object, throwing when
`required` is set and the key is missing. -/
def propAccessor (tok : Nat) (propertySpec : SpecLike) (required : Bool) : Spec :=
  makeSpecFn
    ⟨fun ctx args =>
        let property := toPropKey (args.getD 0 .undef)
        let obj := ctx tok
        if required && !(propIn property obj) then
          .error (.typeError ("Required property missing: " ++ property))
        else .ok (propGet property obj)
    , false⟩ [ensureSpec propertySpec]

/-- The spec built by `object`: a falsy object value short-circuits to
`undefined` (`if (!obj) return undefined`), otherwise the object is bound
under the fresh token and the result spec is evaluated. -/
def objectCore (tok : Nat) (objectSpec resultSpec : Spec) : Spec :=
  makeSpecFn
    ⟨fun ctx args =>
        let obj := args.getD 0 .undef
        if !(jsTruthy obj) then .ok .undef
        else resultSpec.run (ctxExtend ctx tok obj)
    , resultSpec.mayDefer⟩ [objectSpec]

/-- `object(objectSpec, resultSpecFn)`: lift the object spec, invoke the
result builder (unvalidated: a non-callable raises the host's TypeError)
with the accessor, and build the spec. -/
def objectChecked (tok : Nat) (objectSpec : SpecLike)
    (g : FnArg ((SpecLike → Bool → Spec) → SpecLike)) : Except JErr Spec :=
  let os := ensureSpec objectSpec
  match invoke g with
  | .error e => .error e
  | .ok rf => .ok (objectCore tok os (ensureSpec (rf (propAccessor tok))))

/-- The compiled callable returned by `input`: each call builds a brand-new
context binding the given value to the top-level token. -/
def inputCompile (tok : Nat) (specFn : Spec → SpecLike) : JVal → Except JErr JVal :=
  let spec := ensureSpec (specFn (tokenRef tok))
  fun v => spec.run (fun n => if n = tok then v else .undef)

/-- `input(specFn)`: the callback is invoked unvalidated at construction. -/
def inputChecked (tok : Nat) (g : FnArg (Spec → SpecLike)) :
    Except JErr (JVal → Except JErr JVal) :=
  match invoke g with
  | .error e => .error e
  | .ok f => .ok (inputCompile tok f)

/-- The spec built by `bind`: the computed value is bound under the fresh
token and the body spec evaluated against the extended context. -/
def bindCore (tok : Nat) (valueSpec spec : Spec) : Spec :=
  makeSpecFn
    ⟨fun ctx args => spec.run (ctxExtend ctx tok (args.getD 0 .undef))
    , spec.mayDefer⟩ [valueSpec]

/-- `bind(valueSpec, specFn)`: the callback is invoked unvalidated at
construction. -/
def bindChecked (tok : Nat) (valueSpec : SpecLike) (g : FnArg (Spec → SpecLike)) :
    Except JErr Spec :=
  let vs := ensureSpec valueSpec
  match invoke g with
  | .error e => .error e
  | .ok f => .ok (bindCore tok vs (ensureSpec (f (tokenRef tok))))

/-- The memo table of one `cache(...)` instance plus instrumentation:
`misses` records, in order, each key for which `valueSpec(newCtx)` was
actually invoked (the `!cache.has(keyValue)` branch). -/
structure CacheState : Type where
  memo : List (JVal × JVal)
  misses : List JVal

/-- `cache.has` / `cache.get`: native `Map` lookup (primitive keys compare by
value; our structural equality agrees on primitives). -/
def memoLookup : List (JVal × JVal) → JVal → Option JVal
  | [], _ => none
  | (k, v) :: rest, key => if k = key then some v else memoLookup rest key

/-- One evaluation of the `fn` body of `cache`: a present key returns the
stored entry untouched; a missing key invokes the value spec under the
extended context and, when it returns a result (value or promise), stores
that result before returning it; a synchronous throw stores nothing. -/
def cacheFn (tok : Nat) (valueSpec : Spec) (st : CacheState) (ctx : Ctx)
    (keyValue : JVal) : Except JErr JVal × CacheState :=
  match memoLookup st.memo keyValue with
  | some v => (.ok v, st)
  | none =>
    match valueSpec.run (ctxExtend ctx tok keyValue) with
    | .error e => (.error e, { st with misses := st.misses ++ [keyValue] })
    | .ok r =>
      (.ok r, { memo := st.memo ++ [(keyValue, r)], misses := st.misses ++ [keyValue] })

/-- A sequence of evaluations of one cache spec (each with its evaluation
context and the value its key spec produced), threading the memo table. -/
def cacheRun (tok : Nat) (valueSpec : Spec) (st : CacheState) :
    List (Ctx × JVal) → List (Except JErr JVal) × CacheState
  | [] => ([], st)
  | (ctx, k) :: rest =>
    let step := cacheFn tok valueSpec st ctx k
    let next := cacheRun tok valueSpec step.2 rest
    (step.1 :: next.1, next.2)

/-- `cache(keySpec, valueSpecFn)` construction: lift the key spec, invoke the
callback unvalidated, lift its value spec; the composed flag is the usual OR. -/
structure CacheSpec : Type where
  tok : Nat
  keySpec : Spec
  valueSpec : Spec
  mayDefer : Bool

/-- `cache`'s construction (the callback is invoked without
`requireFunction`). -/
def cacheChecked (tok : Nat) (keySpec : SpecLike) (g : FnArg (Spec → SpecLike)) :
    Except JErr CacheSpec :=
  let ks := ensureSpec keySpec
  match invoke g with
  | .error e => .error e
  | .ok f =>
    let vs := ensureSpec (f (tokenRef tok))
    .ok ⟨tok, ks, vs, vs.mayDefer || ks.mayDefer⟩

/-- Recognise an argument that is already a spec (`spec[SPEC_FN]`). -/
def isSpecArg : SpecLike → Bool
  | .spec _ => true
  | _ => false

/-- `map` does not write into its array argument (in the state-passing view of
the heap its argument comes back unchanged; the source never assigns into
`arraySpec`). -/
def mapArgsAfter (arraySpec : SpecLike) : SpecLike := arraySpec

/-- `call` does not write into its argument specs. -/
def callArgsAfter (argumentSpec : List SpecLike) : List SpecLike := argumentSpec

/-- `union` does not write into its argument specs (`Object.assign` builds a
fresh `{}`). -/
def unionArgsAfter (specs : List SpecLike) : List SpecLike := specs

/-- `conditional` does not write into its arguments. -/
def conditionalArgsAfter (specs : List SpecLike) : List SpecLike := specs

/-- `object` does not write into its object-spec argument. -/
def objectArgsAfter (objectSpec : SpecLike) : SpecLike := objectSpec

/-- `bind` does not write into its value-spec argument. -/
def bindArgsAfter (valueSpec : SpecLike) : SpecLike := valueSpec

/-- `cache` does not write into its key-spec argument (its `Map` is private). -/
def cacheArgsAfter (keySpec : SpecLike) : SpecLike := keySpec

/-- `ensureSpec` does not write into its argument (the record branch copies
with `Object.assign({}, spec)` before iterating). -/
def ensureSpecArgAfter (x : SpecLike) : SpecLike := x

/-!  Theorems.  -/

theorem makeSpecFn_mayDefer (body : SpecBody) (specs : List Spec) :
    (makeSpecFn body specs).mayDefer
      = (body.hasPromises || specs.any (fun s => s.mayDefer)) := rfl

theorem makeSpecFn_run (body : SpecBody) (specs : List Spec) (ctx : Ctx) :
    (makeSpecFn body specs).run ctx
      = runComposed body specs
          (body.hasPromises || specs.any (fun s => s.mayDefer)) ctx := rfl

theorem constant_run (v : JVal) (ctx : Ctx) : (constant v).run ctx = .ok v := rfl

theorem isPromiseVal_presolve (v : JVal) : isPromiseVal (presolve v) = true := by
  cases v <;> rfl

theorem runComposed_sync (body : SpecBody) (specs : List Spec) (ctx : Ctx) :
    runComposed body specs false ctx
      = match evalChildren specs ctx with
        | .error e => .error e
        | .ok cs => body.fn ctx cs := by
  unfold runComposed
  cases evalChildren specs ctx <;> simp

theorem evalChildren_singleton (s : Spec) (ctx : Ctx) (v : JVal)
    (h : s.run ctx = .ok v) : evalChildren [s] ctx = .ok [v] := by
  simp [evalChildren, h]

/-- C4: for every spec built by `makeSpecFn`, the static `mayDefer` flag
equals the explicit override OR-ed with the children's flags, is fixed at
construction (it is a field of the immutable `Spec` value), and alone decides
the delivery mode: when set, every evaluation whose children return results
delivers a promise; when clear, the body's result is returned directly with
no promise wrapping. -/
theorem makeSpec_mayDefer_rule (body : SpecBody) (specs : List Spec) :
    ((makeSpecFn body specs).mayDefer
        = (body.hasPromises || specs.any (fun s => s.mayDefer)))
    ∧ ((makeSpecFn body specs).mayDefer = true →
        ∀ (ctx : Ctx) (vs : List JVal), evalChildren specs ctx = .ok vs →
          ∃ p, (makeSpecFn body specs).run ctx = .ok p ∧ isPromiseVal p = true)
    ∧ ((makeSpecFn body specs).mayDefer = false →
        ∀ ctx : Ctx, (makeSpecFn body specs).run ctx
          = match evalChildren specs ctx with
            | .error e => .error e
            | .ok cs => body.fn ctx cs) := by
  refine ⟨rfl, ?_, ?_⟩
  · intro h ctx vs hvs
    have hp : (body.hasPromises || specs.any (fun s => s.mayDefer)) = true := h
    rw [makeSpecFn_run, hp]
    unfold runComposed
    rw [hvs]
    simp only [if_true]
    cases hsa : settleAll vs with
    | error e => exact ⟨.jpromErr e, rfl, rfl⟩
    | ok ws =>
      cases hfn : body.fn ctx ws with
      | error e => exact ⟨.jpromErr e, by simp [hfn], rfl⟩
      | ok v => exact ⟨presolve v, by simp [hfn], isPromiseVal_presolve v⟩
  · intro h ctx
    have hp : (body.hasPromises || specs.any (fun s => s.mayDefer)) = false := h
    rw [makeSpecFn_run, hp, runComposed_sync]

/-- C4 witness: a body with the explicit override set builds a spec whose
flag is true and whose evaluation delivers a promise. -/
theorem makeSpec_mayDefer_rule_witness :
    ∃ p, (makeSpecFn ⟨fun _ _ => .ok .jnull, true⟩ []).run ctxEmpty = .ok p
      ∧ isPromiseVal p = true :=
  (makeSpec_mayDefer_rule ⟨fun _ _ => .ok .jnull, true⟩ []).2.1 rfl ctxEmpty [] rfl

/-- C1 (amended): `object(objectSpec, fn)` short-circuits to the absent
marker exactly when the object value is *falsy* (`undefined`, `null`,
`false`, `0`, or the empty string) — not only when it is the absent marker —
and for a falsy value the result spec is never evaluated (the outcome is
`undefined` for every result spec); for every truthy value the object is
bound under the fresh token and the result spec evaluated against the
extended context. -/
theorem object_falsy_gate (tok : Nat) (os rs : Spec) (ctx : Ctx) (v : JVal)
    (hv : os.run ctx = .ok v) (h1 : os.mayDefer = false) :
    (jsTruthy v = false → ∀ rs2 : Spec, rs2.mayDefer = false →
        (objectCore tok os rs2).run ctx = .ok .undef)
    ∧ (jsTruthy v = true → rs.mayDefer = false →
        (objectCore tok os rs).run ctx = rs.run (ctxExtend ctx tok v)) := by
  constructor
  · intro hfalsy rs2 h2
    have : (rs2.mayDefer || [os].any (fun s => s.mayDefer)) = false := by
      simp [h1, h2]
    rw [objectCore, makeSpecFn_run, this, runComposed_sync,
        evalChildren_singleton os ctx v hv]
    simp [hfalsy]
  · intro htruthy h2
    have : (rs.mayDefer || [os].any (fun s => s.mayDefer)) = false := by
      simp [h1, h2]
    rw [objectCore, makeSpecFn_run, this, runComposed_sync,
        evalChildren_singleton os ctx v hv]
    simp [htruthy]

/-- C1 witness: a truthy object value is bound and the result spec runs. -/
theorem object_falsy_gate_witness :
    (objectCore 0 (constant (.jnum 5)) (constant (.jnum 42))).run ctxEmpty
      = (constant (.jnum 42)).run (ctxExtend ctxEmpty 0 (.jnum 5)) :=
  (object_falsy_gate 0 (constant (.jnum 5)) (constant (.jnum 42)) ctxEmpty
      (.jnum 5) rfl rfl).2 rfl rfl

/-- C1 counterexample: the object spec evaluates to `0`, a present value that
is not the absent marker, yet the composed spec evaluates to absent instead
of running the result spec (which would have produced `42`). -/
theorem object_absent_claim_counterexample :
    (constant (.jnum 0)).run ctxEmpty = .ok (.jnum 0)
    ∧ JVal.jnum 0 ≠ JVal.undef
    ∧ (objectCore 0 (constant (.jnum 0)) (constant (.jnum 42))).run ctxEmpty
        = .ok .undef
    ∧ (Except.ok JVal.undef : Except JErr JVal) ≠ .ok (.jnum 42) :=
  ⟨rfl, by decide, by decide, by decide⟩

/-- C2 (amended): a non-callable in function position makes every one of the
six constructions fail synchronously at construction time, but only `call`
and `map` validate with `requireFunction` and raise `IllegalSpecError`;
`object`, `bind`, `cache` and `input` invoke the argument directly and fail
with the host's TypeError instead. -/
theorem nonCallable_construction (v : JVal) (tok : Nat) (sl : SpecLike)
    (argumentSpec : List SpecLike) :
    callChecked (.nonFn v) argumentSpec
        = .error (.illegalSpec "argument must be function")
    ∧ mapChecked tok sl (.nonFn v)
        = .error (.illegalSpec "argument must be function")
    ∧ objectChecked tok sl (.nonFn v) = .error (.typeError "is not a function")
    ∧ bindChecked tok sl (.nonFn v) = .error (.typeError "is not a function")
    ∧ cacheChecked tok sl (.nonFn v) = .error (.typeError "is not a function")
    ∧ inputChecked tok (.nonFn v) = .error (.typeError "is not a function") :=
  ⟨rfl, rfl, rfl, rfl, rfl, rfl⟩

/-- C2 counterexample: `object` with a non-callable result builder does fail
at construction, but not with the illegal-spec error the claim names. -/
theorem nonCallable_claim_counterexample :
    isErr (objectChecked 0 (.jnum 1) (.nonFn (.jnum 1))) = true
    ∧ isIllegalSpecErr (objectChecked 0 (.jnum 1) (.nonFn (.jnum 1))) = false :=
  ⟨rfl, rfl⟩

/-- C9: the callable compiled from the identity builder `input(i => i)`
returns every runtime value unchanged. -/
theorem input_identity (tok : Nat) (v : JVal) :
    inputCompile tok (fun r => .spec r) v = .ok v := by
  simp [inputCompile, ensureSpec, tokenRef, makeSpecFn, runComposed, evalChildren]

theorem objAssemble_eq_filter (ns : List String) (vs : List JVal) :
    objAssemble ns vs = (ns.zip vs).filter (fun p => p.2 != JVal.undef) := by
  induction ns generalizing vs with
  | nil => simp [objAssemble]
  | cons n ns ih =>
    cases vs with
    | nil => simp [objAssemble]
    | cons a vs =>
      by_cases h : a = JVal.undef
      · simp [objAssemble, h, ih]
      · simp [objAssemble, h, ih]

/-- C8: a record lifted by `ensureSpec` evaluates to the record keeping
exactly the keys whose lifted value did not evaluate to the absent marker;
keys whose value evaluates to `undefined` are dropped entirely. -/
theorem ensureSpec_record_drops_absent (fs : List (String × SpecLike))
    (ctx : Ctx) (vs : List JVal)
    (hsync : (ensureSpecFields fs).any (fun s => s.mayDefer) = false)
    (hvs : evalChildren (ensureSpecFields fs) ctx = .ok vs) :
    (ensureSpec (.obj fs)).run ctx
      = .ok (.jobj (((fs.map Prod.fst).zip vs).filter
          (fun p => p.2 != JVal.undef))) := by
  rw [ensureSpec, makeSpecFn_run]
  have hhp : (false || (ensureSpecFields fs).any (fun s => s.mayDefer)) = false := by
    simp [hsync]
  rw [hhp, runComposed_sync, hvs]
  simp [objAssemble_eq_filter]

/-- C8 witness: `{a: absent, b: 1}` lifts to a spec evaluating to `{b: 1}`. -/
theorem ensureSpec_record_drops_absent_witness :
    (ensureSpec (.obj [("a", .undef), ("b", .jnum 1)])).run ctxEmpty
      = .ok (.jobj (((["a", "b"].zip [JVal.undef, JVal.jnum 1]).filter
          (fun p => p.2 != JVal.undef)))) :=
  ensureSpec_record_drops_absent [("a", .undef), ("b", .jnum 1)] ctxEmpty
    [JVal.undef, JVal.jnum 1] (by decide) (by decide)

/-- C6: `cases` evaluates the selector to a key; a matching case spec is
evaluated and its result returned, and a key with no matching entry yields
the absent marker (a fulfilled `undefined` in the promise-aware branch), not
a failure. -/
theorem cases_dispatch (sel : SpecLike) (cm : List (String × SpecLike))
    (ctx : Ctx) (v : JVal) (hsel : (ensureSpec sel).run ctx = .ok v) :
    ((ensureSpec sel).mayDefer = false →
     (casesLiftMap cm).any (fun p => p.2.mayDefer) = false →
      (lookupCase (casesLiftMap cm) (toPropKey v) = none →
          (casesC sel cm).run ctx = .ok .undef)
      ∧ (∀ cs, lookupCase (casesLiftMap cm) (toPropKey v) = some cs →
          (casesC sel cm).run ctx = cs.run ctx))
    ∧ (((ensureSpec sel).mayDefer
          || (casesLiftMap cm).any (fun p => p.2.mayDefer)) = true →
        ∀ cv, settle v = .ok cv →
          lookupCase (casesLiftMap cm) (toPropKey cv) = none →
          (casesC sel cm).run ctx = .ok (.jprom .undef)) := by
  constructor
  · intro h1 h2
    have hp : ((ensureSpec sel).mayDefer
        || (casesLiftMap cm).any (fun p => p.2.mayDefer)) = false := by
      simp [h1, h2]
    constructor
    · intro hnone
      simp only [casesC, hp, if_false, Bool.false_eq_true, hsel, hnone]
    · intro cs hsome
      simp only [casesC, hp, if_false, Bool.false_eq_true, hsel, hsome]
  · intro hp cv hcv hnone
    simp only [casesC, hp, if_true, hsel, hcv, hnone, presolve]

/-- C6 witness: selector `'c'` with cases `{a: 1, b: 2}` yields absent. -/
theorem cases_dispatch_witness :
    (casesC (.jstr "c") [("a", .jnum 1), ("b", .jnum 2)]).run ctxEmpty
      = .ok .undef :=
  ((cases_dispatch (.jstr "c") [("a", .jnum 1), ("b", .jnum 2)] ctxEmpty
      (.jstr "c") rfl).1 rfl rfl).1 rfl

theorem mapItems_length (itemS : Spec) (tok : Nat) (ctx : Ctx) :
    ∀ (xs ws : List JVal), mapItems itemS tok ctx xs = .ok ws →
      ws.length = xs.length := by
  intro xs
  induction xs with
  | nil => intro ws h; simp [mapItems] at h; simp [← h]
  | cons x xs ih =>
    intro ws h
    simp only [mapItems] at h
    cases hr : itemS.run (ctxExtend ctx tok x) with
    | error e => rw [hr] at h; cases h
    | ok w =>
      rw [hr] at h
      cases hrest : mapItems itemS tok ctx xs with
      | error e => rw [hrest] at h; cases h
      | ok ws2 =>
        rw [hrest] at h
        cases h
        simp [ih ws2 hrest]

/-- C7: constructing `map` can only fail with the illegal-spec error (never a
type mismatch); evaluating the composed spec throws the array TypeError
exactly on a non-array value of the array spec, and on an array it maps the
item spec over the elements in index order, one output per input. -/
theorem map_type_mismatch :
    (∀ (tok : Nat) (arraySpec : SpecLike) (g : FnArg (Spec → SpecLike)),
        mapChecked tok arraySpec g
            = .error (.illegalSpec "argument must be function")
        ∨ ∃ s, mapChecked tok arraySpec g = .ok s)
    ∧ (∀ (tok : Nat) (arrS itemS : Spec) (ctx : Ctx) (v : JVal),
        arrS.run ctx = .ok v → arrS.mayDefer = false → itemS.mayDefer = false →
        (mapCore tok arrS itemS).run ctx
          = match v with
            | .jarr items =>
              (match mapItems itemS tok ctx items with
               | .error e => .error e
               | .ok rs => .ok (.jarr rs))
            | other =>
              .error (.typeError
                ("Argument did not evaluate to an array: " ++ typeofStr other)))
    ∧ (∀ (itemS : Spec) (tok : Nat) (ctx : Ctx) (xs ws : List JVal),
        mapItems itemS tok ctx xs = .ok ws → ws.length = xs.length) := by
  refine ⟨?_, ?_, fun itemS tok ctx xs ws h => mapItems_length itemS tok ctx xs ws h⟩
  · intro tok arraySpec g
    cases g with
    | nonFn v => exact Or.inl rfl
    | fn f => exact Or.inr ⟨_, rfl⟩
  · intro tok arrS itemS ctx v hv h1 h2
    have hp : (itemS.mayDefer || [arrS].any (fun s => s.mayDefer)) = false := by
      simp [h1, h2]
    rw [mapCore]
    simp only [h2]
    rw [makeSpecFn_run]
    simp only [h2, h1, List.any_cons, List.any_nil, Bool.or_false, Bool.false_or]
    rw [runComposed_sync, evalChildren_singleton arrS ctx v hv]
    cases v <;> simp

/-- C7 witness: a non-array value raises the map TypeError at evaluation. -/
theorem map_type_mismatch_witness :
    (mapCore 0 (constant (.jstr "not-an-array")) (tokenRef 0)).run ctxEmpty
      = .error (.typeError "Argument did not evaluate to an array: string") := by
  have h := map_type_mismatch.2.1 0 (constant (.jstr "not-an-array"))
    (tokenRef 0) ctxEmpty (.jstr "not-an-array") rfl rfl rfl
  simpa using h

theorem toLitFields_names (fs : List (String × JVal)) :
    (toLitFields fs).map Prod.fst = fs.map Prod.fst := by
  induction fs with
  | nil => rfl
  | cons p fs ih => cases p; simp [toLitFields, ih]

theorem objAssemble_all_defined (fs : List (String × JVal))
    (h : goodLitFields fs = true) :
    objAssemble (fs.map Prod.fst) (fs.map Prod.snd) = fs := by
  induction fs with
  | nil => rfl
  | cons p fs ih =>
    obtain ⟨n, v⟩ := p
    simp only [goodLitFields, Bool.and_eq_true, Bool.not_eq_true',
      beq_eq_false_iff_ne, ne_eq] at h
    obtain ⟨⟨hne, _⟩, hrest⟩ := h
    simp [objAssemble, hne, ih hrest]

mutual

theorem toLit_mayDefer : ∀ v : JVal, (ensureSpec (toLit v)).mayDefer = false
  | .undef => rfl
  | .jnull => rfl
  | .jbool _ => rfl
  | .jnum _ => rfl
  | .jstr _ => rfl
  | .jprom _ => rfl
  | .jpromErr _ => rfl
  | .jarr xs => by
      simp [toLit, ensureSpec, makeSpecFn_mayDefer, toLit_mayDefer_list xs]
  | .jobj fs => by
      simp [toLit, ensureSpec, makeSpecFn_mayDefer, toLit_mayDefer_fields fs]

theorem toLit_mayDefer_list : ∀ xs : List JVal,
    (ensureSpecList (toLitList xs)).any (fun s => s.mayDefer) = false
  | [] => rfl
  | x :: xs => by
      simp [toLitList, ensureSpecList, toLit_mayDefer x, toLit_mayDefer_list xs]

theorem toLit_mayDefer_fields : ∀ fs : List (String × JVal),
    (ensureSpecFields (toLitFields fs)).any (fun s => s.mayDefer) = false
  | [] => rfl
  | (n, v) :: fs => by
      simp [toLitFields, ensureSpecFields, toLit_mayDefer v,
        toLit_mayDefer_fields fs]

end

mutual

theorem toLit_run : ∀ (v : JVal), goodLit v = true → ∀ ctx : Ctx,
    (ensureSpec (toLit v)).run ctx = .ok v
  | .undef, _, ctx => rfl
  | .jbool _, _, ctx => rfl
  | .jnum _, _, ctx => rfl
  | .jstr _, _, ctx => rfl
  | .jnull, h, ctx => by simp [goodLit] at h
  | .jprom _, h, ctx => by simp [goodLit] at h
  | .jpromErr _, h, ctx => by simp [goodLit] at h
  | .jarr xs, h, ctx => by
      have hg : goodLitList xs = true := by simpa [goodLit] using h
      rw [toLit, ensureSpec, makeSpecFn_run]
      rw [Bool.false_or, toLit_mayDefer_list xs, runComposed_sync,
        toLit_run_list xs hg ctx]
  | .jobj fs, h, ctx => by
      have hg : goodLitFields fs = true := by simpa [goodLit] using h
      rw [toLit, ensureSpec, makeSpecFn_run]
      rw [Bool.false_or, toLit_mayDefer_fields fs, runComposed_sync,
        toLit_run_fields fs hg ctx]
      simp [toLitFields_names, objAssemble_all_defined fs hg]

theorem toLit_run_list : ∀ (xs : List JVal), goodLitList xs = true →
    ∀ ctx : Ctx, evalChildren (ensureSpecList (toLitList xs)) ctx = .ok xs
  | [], _, ctx => rfl
  | x :: xs, h, ctx => by
      have h1 : goodLit x = true := by
        simp only [goodLitList, Bool.and_eq_true] at h; exact h.1
      have h2 : goodLitList xs = true := by
        simp only [goodLitList, Bool.and_eq_true] at h; exact h.2
      simp only [toLitList, ensureSpecList, evalChildren,
        toLit_run x h1 ctx, toLit_run_list xs h2 ctx]

theorem toLit_run_fields : ∀ (fs : List (String × JVal)),
    goodLitFields fs = true → ∀ ctx : Ctx,
    evalChildren (ensureSpecFields (toLitFields fs)) ctx
      = .ok (fs.map Prod.snd)
  | [], _, ctx => rfl
  | (n, v) :: fs, h, ctx => by
      have h1 : goodLit v = true := by
        simp only [goodLitFields, Bool.and_eq_true] at h; exact h.1.2
      have h2 : goodLitFields fs = true := by
        simp only [goodLitFields, Bool.and_eq_true] at h; exact h.2
      simp only [toLitFields, ensureSpecFields, evalChildren,
        toLit_run v h1 ctx, toLit_run_fields fs h2 ctx, List.map]

end

/-- C3 (amended): every literal containing no `null` and no record field
whose value is the absent marker lifts by `ensureSpec` to a spec evaluating
to a structurally equal copy of the literal (scalars — including the
unproblematic ones `undefined`, booleans, numbers, strings — arrays and
keyed records, arbitrarily nested). -/
theorem ensureSpec_literal_roundtrip (v : JVal) (ctx : Ctx)
    (h : goodLit v = true) : (ensureSpec (toLit v)).run ctx = .ok v :=
  toLit_run v h ctx

/-- C3 witness: a nested record/array literal round-trips. -/
theorem ensureSpec_literal_roundtrip_witness :
    goodLit (JVal.jobj [("a", .jarr [.jnum 1, .jstr "x"]), ("b", .jbool true)])
        = true
    ∧ (ensureSpec (toLit (JVal.jobj
        [("a", .jarr [.jnum 1, .jstr "x"]), ("b", .jbool true)]))).run ctxEmpty
      = .ok (JVal.jobj [("a", .jarr [.jnum 1, .jstr "x"]), ("b", .jbool true)]) :=
  ⟨by decide, ensureSpec_literal_roundtrip _ ctxEmpty (by decide)⟩

/-- C3 counterexample: `typeof null === 'object'` sends `null` down the
record branch, so `ensureSpec(null)` evaluates to the empty record, not to a
structurally equal copy of `null`. -/
theorem ensureSpec_null_counterexample :
    (ensureSpec (toLit .jnull)).run ctxEmpty = .ok (.jobj [])
    ∧ JVal.jobj [] ≠ JVal.jnull :=
  ⟨by decide, by decide⟩

theorem casesLiftMap_eq (cm : List (String × SpecLike)) :
    casesLiftMap cm = cm.map (fun p => (p.1, ensureSpec p.2)) := by
  induction cm with
  | nil => rfl
  | cons p cm ih => cases p; simp [casesLiftMap, ih]

/-- C10: `cases` replaces, at construction time, every entry of the
caller-supplied case map by its lifted spec (the state-passing view of the
in-place writes `caseSpecs[caseName] = caseSpec`), so a raw (non-spec) entry
is no longer present afterwards; every other combinator returns its argument
structures unmodified. -/
theorem cases_mutates_case_map (cm : List (String × SpecLike)) :
    casesMapAfter cm = cm.map (fun p => (p.1, SpecLike.spec (ensureSpec p.2)))
    ∧ (∀ p ∈ cm, isSpecArg p.2 = false → p ∉ casesMapAfter cm)
    ∧ (∀ s : SpecLike, mapArgsAfter s = s ∧ objectArgsAfter s = s
        ∧ bindArgsAfter s = s ∧ cacheArgsAfter s = s ∧ ensureSpecArgAfter s = s)
    ∧ (∀ l : List SpecLike, callArgsAfter l = l ∧ unionArgsAfter l = l
        ∧ conditionalArgsAfter l = l) := by
  have hmap : casesMapAfter cm
      = cm.map (fun p => (p.1, SpecLike.spec (ensureSpec p.2))) := by
    rw [casesMapAfter, casesLiftMap_eq, List.map_map]
    rfl
  refine ⟨hmap, ?_, fun s => ⟨rfl, rfl, rfl, rfl, rfl⟩, fun l => ⟨rfl, rfl, rfl⟩⟩
  intro p hp hraw hmem
  rw [hmap] at hmem
  obtain ⟨q, _, hq⟩ := List.mem_map.mp hmem
  rw [← hq] at hraw
  simp [isSpecArg] at hraw

/-- C10 witness: a raw numeric case entry is gone from the post-construction
map. -/
theorem cases_mutates_case_map_witness :
    ("a", SpecLike.jnum 1) ∉ casesMapAfter [("a", SpecLike.jnum 1)] :=
  (cases_mutates_case_map [("a", SpecLike.jnum 1)]).2.1 ("a", SpecLike.jnum 1)
    (by simp) rfl

theorem memoLookup_append (l : List (JVal × JVal)) (k w j : JVal) :
    memoLookup (l ++ [(k, w)]) j
      = match memoLookup l j with
        | some v => some v
        | none => if k = j then some w else none := by
  induction l with
  | nil => simp [memoLookup]
  | cons p l ih =>
    obtain ⟨k2, v2⟩ := p
    by_cases h : k2 = j
    · simp [memoLookup, h]
    · simp [memoLookup, h, ih]

theorem cacheRun_inv (tok : Nat) (vs : Spec)
    (hnt : ∀ c : Ctx, ∃ w, vs.run c = .ok w) :
    ∀ (reqs : List (Ctx × JVal)) (st : CacheState),
      st.misses.Nodup →
      (∀ k, ((memoLookup st.memo k).isSome = true ↔ k ∈ st.misses)) →
      ((cacheRun tok vs st reqs).2.misses.Nodup
       ∧ (∀ k, ((memoLookup (cacheRun tok vs st reqs).2.memo k).isSome = true
            ↔ k ∈ (cacheRun tok vs st reqs).2.misses))
       ∧ (∀ k, (k ∈ (cacheRun tok vs st reqs).2.misses
            ↔ k ∈ st.misses ∨ k ∈ reqs.map Prod.snd))) := by
  intro reqs
  induction reqs with
  | nil =>
    intro st h1 h2
    exact ⟨h1, h2, fun k => by simp [cacheRun]⟩
  | cons req reqs ih =>
    obtain ⟨ctx, key⟩ := req
    intro st h1 h2
    cases hl : memoLookup st.memo key with
    | some v =>
      have hstep : cacheFn tok vs st ctx key = (.ok v, st) := by
        simp [cacheFn, hl]
      have hkey : key ∈ st.misses := by
        have := (h2 key).mp (by simp [hl])
        exact this
      have hrest := ih st h1 h2
      refine ⟨?_, ?_, ?_⟩
      · simpa [cacheRun, hstep] using hrest.1
      · simpa [cacheRun, hstep] using hrest.2.1
      · intro k
        have hm := hrest.2.2 k
        simp only [cacheRun, hstep] at *
        rw [hm]
        simp only [List.map_cons, List.mem_cons]
        constructor
        · rintro (h | h)
          · exact Or.inl h
          · exact Or.inr (Or.inr h)
        · rintro (h | h | h)
          · exact Or.inl h
          · exact Or.inl (h ▸ hkey)
          · exact Or.inr h
    | none =>
      obtain ⟨w, hw⟩ := hnt (ctxExtend ctx tok key)
      have hstep : cacheFn tok vs st ctx key
          = (.ok w, ⟨st.memo ++ [(key, w)], st.misses ++ [key]⟩) := by
        simp [cacheFn, hl, hw]
      have hkey : key ∉ st.misses := by
        intro hm
        have := (h2 key).mpr hm
        rw [hl] at this
        simp at this
      have h1' : (st.misses ++ [key]).Nodup := by
        simp [List.nodup_append, h1, hkey]
      have h2' : ∀ k, ((memoLookup (st.memo ++ [(key, w)]) k).isSome = true
          ↔ k ∈ st.misses ++ [key]) := by
        intro k
        rw [memoLookup_append]
        cases hlk : memoLookup st.memo k with
        | some v2 =>
          have : k ∈ st.misses := (h2 k).mp (by simp [hlk])
          simp [this]
        | none =>
          have : k ∉ st.misses := by
            intro hm
            have := (h2 k).mpr hm
            rw [hlk] at this
            simp at this
          by_cases hkk : key = k
          · simp [hkk]
          · simp [hkk, this, Ne.symm hkk]
      have hrest := ih ⟨st.memo ++ [(key, w)], st.misses ++ [key]⟩ h1' h2'
      refine ⟨?_, ?_, ?_⟩
      · simpa [cacheRun, hstep] using hrest.1
      · simpa [cacheRun, hstep] using hrest.2.1
      · intro k
        have hm := hrest.2.2 k
        simp only [cacheRun, hstep] at *
        rw [hm]
        simp only [List.mem_append, List.mem_singleton, List.map_cons,
          List.mem_cons]
        tauto

/-- C5 (amended): a cache hit returns the stored entry with the memo table
untouched and without consulting the value spec at all; a cache miss whose
value spec returns a result (value or deferred value) invokes it exactly
once, stores that result itself under the key, and returns it; and over any
request sequence of a cache instance whose value spec never throws
synchronously, the value spec is invoked at most once per distinct key and
exactly once per distinct key ever requested.  (A value spec that throws
synchronously stores nothing, so a later request with the same key invokes
it again.) -/
theorem cache_memoizes (tok : Nat) (vs : Spec) :
    (∀ (st : CacheState) (ctx : Ctx) (k v : JVal),
        memoLookup st.memo k = some v →
        ∀ vs2 : Spec, cacheFn tok vs2 st ctx k = (.ok v, st))
    ∧ (∀ (st : CacheState) (ctx : Ctx) (k r : JVal),
        memoLookup st.memo k = none →
        vs.run (ctxExtend ctx tok k) = .ok r →
        cacheFn tok vs st ctx k
          = (.ok r, ⟨st.memo ++ [(k, r)], st.misses ++ [k]⟩))
    ∧ (∀ reqs : List (Ctx × JVal),
        (∀ c : Ctx, ∃ w, vs.run c = .ok w) →
        ∀ k, ((cacheRun tok vs ⟨[], []⟩ reqs).2.misses.count k ≤ 1
          ∧ (k ∈ (cacheRun tok vs ⟨[], []⟩ reqs).2.misses
              ↔ k ∈ reqs.map Prod.snd))) := by
  refine ⟨?_, ?_, ?_⟩
  · intro st ctx k v hl vs2
    simp [cacheFn, hl]
  · intro st ctx k r hl hr
    simp [cacheFn, hl, hr]
  · intro reqs hnt k
    have hinv := cacheRun_inv tok vs hnt reqs ⟨[], []⟩ (by simp)
      (fun j => by simp [memoLookup])
    constructor
    · exact List.nodup_iff_count_le_one.mp hinv.1 k
    · have := hinv.2.2 k
      simpa using this

/-- C5 witness: a hit returns the stored entry (whatever the value spec);
over the sequence `[1, 1, 2]` with a constant value spec, key `1` is missed
at most once. -/
theorem cache_memoizes_witness :
    cacheFn 0 (constant .undef) ⟨[(.jnum 1, .jnum 9)], [.jnum 1]⟩ ctxEmpty
        (.jnum 1)
      = (.ok (.jnum 9), ⟨[(.jnum 1, .jnum 9)], [.jnum 1]⟩)
    ∧ ((cacheRun 0 (constant (.jnum 7)) ⟨[], []⟩
        [(ctxEmpty, .jnum 1), (ctxEmpty, .jnum 1),
         (ctxEmpty, .jnum 2)]).2.misses.count (.jnum 1) ≤ 1) :=
  ⟨(cache_memoizes 0 (constant (.jnum 7))).1
      ⟨[(.jnum 1, .jnum 9)], [.jnum 1]⟩ ctxEmpty (.jnum 1) (.jnum 9) rfl
      (constant .undef),
   ((cache_memoizes 0 (constant (.jnum 7))).2.2
      [(ctxEmpty, .jnum 1), (ctxEmpty, .jnum 1), (ctxEmpty, .jnum 2)]
      (fun _ => ⟨.jnum 7, rfl⟩) (.jnum 1)).1⟩

/-- C5 counterexample: a value spec that throws synchronously (here `call` of
a throwing function) stores nothing, so two requests with the same key invoke
it twice — against "at most once per distinct key". -/
theorem cache_claim_counterexample :
    (cacheRun 0 (callCore (fun _ => .error (.typeError "boom")) []) ⟨[], []⟩
        [(ctxEmpty, .jnum 1), (ctxEmpty, .jnum 1)]).2.misses
      = [.jnum 1, .jnum 1]
    ∧ (cacheRun 0 (callCore (fun _ => .error (.typeError "boom")) []) ⟨[], []⟩
        [(ctxEmpty, .jnum 1), (ctxEmpty, .jnum 1)]).2.memo = []
    ∧ ([JVal.jnum 1, .jnum 1].count (.jnum 1)) = 2 :=
  ⟨by decide, by decide, by decide⟩
